import Mathlib

/-
  Shallow embedding of the SQLAir CSV database core (src/sqlair/SQLAir.cpp).

  Rows are ordered lists of string cells; a CSV is a header (column names)
  plus an ordered list of rows.  Fallible C++ operations (vector::at and
  string element access that throw or are undefined out of bounds,
  column-name lookup that can fail) are embedded in the Option monad:
  `none` models a thrown exception or an out-of-bounds access.

  The concurrency-free slice of each query is embedded as a pure function
  from the table state to the produced output lines; the blocking
  ("wait until match") loop of selectQuery/updateQuery is embedded
  separately as an event trace over an abstract sequence of scan results
  (one result per scan, the table being mutable between scans by
  concurrent writers), with explicit scan / wait / write events.
-/

namespace SQLAir

/-- A row of a CSV table: one string cell per column
    (CSVRow in the C++ sources). -/
abbrev CSVRow := List String

/-- An in-memory CSV table: the ordered column names and the ordered rows.
    The name-to-index map of the C++ CSV class is represented by positional
    lookup in `colNames`. -/
structure CSV where
  colNames : List String
  rows : List CSVRow
deriving DecidableEq

/-- Table invariant from the spec's data model: every row has exactly one
    cell per column. -/
def CSV.wf (csv : CSV) : Prop :=
  ∀ r ∈ csv.rows, r.length = csv.colNames.length

instance (csv : CSV) : Decidable csv.wf := by
  unfold CSV.wf; infer_instance

/-- Position of the first occurrence of `name` in a list, if any. -/
def idxOf : String → List String → Option Nat
  | _, [] => none
  | name, c :: cs =>
      if c = name then some 0 else (idxOf name cs).map (fun i => i + 1)

/-- CSV::getColumnIndex — maps a column name to its index; the C++ version
    throws on an unknown column, embedded as `none`. -/
def CSV.getColumnIndex (csv : CSV) (name : String) : Option Nat :=
  idxOf name csv.colNames

/-- Bounded substring test on character lists (used to embed the spec's
    `like` operator). -/
def hasSubstr (pat : List Char) : List Char → Bool
  | [] => pat.isEmpty
  | c :: t => pat.isPrefixOf (c :: t) || hasSubstr pat t

/-- Modelled from the spec: the Predicate Evaluator collaborator
    `SQLAirBase::matches` (spec section 6), whose source is not under src/.
    Operators: `=, !=, <, <=, >, >=, like` (substring test), evaluated on
    string cell values. -/
def matchesOp (cell cond value : String) : Bool :=
  if cond = "=" then cell = value
  else if cond = "!=" then !(cell = value)
  else if cond = "<" then cell < value
  else if cond = "<=" then !(value < cell)
  else if cond = ">" then value < cell
  else if cond = ">=" then !(cell < value)
  else if cond = "like" then hasSubstr value.toList cell.toList
  else false

/-- Whether a row satisfies the optional where-clause, as evaluated by
    select/update: `whereColIdx == -1 ? true : matches(row.at(whereColIdx),
    cond, value)`.  `none` models `row.at` throwing (index out of range). -/
def rowIsMatch (whereColIdx : Int) (cond value : String) (row : CSVRow) :
    Option Bool :=
  if whereColIdx = -1 then some true
  else if whereColIdx < 0 then none
  else (row.get? whereColIdx.toNat).map (fun c => matchesOp c cond value)

/-- Total version of `rowIsMatch` used to state theorems (agrees with it
    whenever the access is in bounds). -/
def rowMatchB (whereColIdx : Int) (cond value : String) (row : CSVRow) :
    Bool :=
  match rowIsMatch whereColIdx cond value row with
  | some b => b
  | none => false

/-- Whether deleteQuery keeps a row:
    `whereColIdx == -1 || !matches(row.at(whereColIdx), cond, value)`. -/
def rowKeep (whereColIdx : Int) (cond value : String) (row : CSVRow) :
    Option Bool :=
  if whereColIdx = -1 then some true
  else (rowIsMatch whereColIdx cond value row).map (fun b => !b)

/-- Total version of `rowKeep` (agrees with it in bounds). -/
def rowKeepB (whereColIdx : Int) (cond value : String) (row : CSVRow) :
    Bool :=
  if whereColIdx = -1 then true else !(rowMatchB whereColIdx cond value row)

/-- The row-scan loop of SQLAir::deleteQuery: push every row that does not
    match onto a fresh CSV, counting the pushed (kept) rows. -/
def deleteScan (whereColIdx : Int) (cond value : String) :
    List CSVRow → Option (List CSVRow × Nat)
  | [] => some ([], 0)
  | row :: rest => do
      let keep ← rowKeep whereColIdx cond value row
      let (kept, n) ← deleteScan whereColIdx cond value rest
      if keep then some (row :: kept, n + 1) else some (kept, n)

/-- SQLAir::deleteQuery: rebuild the row sequence keeping non-matching
    rows, swap it in, and output `<counts> row(s) Deleted.` where `counts`
    is the number of rows pushed onto the new sequence (the kept rows). -/
def deleteQuery (rows : List CSVRow) (whereColIdx : Int)
    (cond value : String) : Option (List CSVRow × String) :=
  (deleteScan whereColIdx cond value rows).map
    (fun p => (p.1, toString p.2 ++ " row(s) Deleted."))

/-- The wildcard expansion at the head of SQLAir::selectHelper:
    `colNames.size() == 1 && colNames.front() == "*"` expands to the
    table's full column list. -/
def expandColsSelect (csv : CSV) (colNames : List String) : List String :=
  match colNames with
  | [c] => if c = "*" then csv.colNames else colNames
  | _ => colNames

/-- The wildcard expansion at the head of SQLAir::updateHelper:
    `std::find(colNames.begin(), colNames.end(), "*") != colNames.end()`
    expands whenever "*" occurs anywhere in the list. -/
def expandColsUpdate (csv : CSV) (colNames : List String) : List String :=
  if "*" ∈ colNames then csv.colNames else colNames

/-- The cell values gathered by printRow: for each selected column name,
    `rowCopy.at(csv.getColumnIndex(colName))`. -/
def rowCells (csv : CSV) (row : CSVRow) : List String → Option (List String)
  | [] => some []
  | c :: cs => do
      let i ← csv.getColumnIndex c
      let cell ← row.get? i
      let rest ← rowCells csv row cs
      some (cell :: rest)

/-- printRow — one output line per selected row: the selected columns'
    cells joined by tabs. -/
def printRow (csv : CSV) (cols : List String) (row : CSVRow) :
    Option String :=
  (rowCells csv row cols).map (String.intercalate "\t")

/-- Modelled from the spec: the StrVec stream-output operator used for the
    header line (`os << colNames`, defined with the CSV class outside
    src/); the spec's sample output shows the header tab-separated. -/
def headerLine (cols : List String) : String :=
  String.intercalate "\t" cols

/-- Total per-row rendering used to state theorems (agrees with printRow
    whenever every lookup is in bounds). -/
def renderRow (csv : CSV) (cols : List String) (row : CSVRow) : String :=
  String.intercalate "\t"
    (cols.map (fun c => ((csv.getColumnIndex c).bind row.get?).getD ""))

/-- The row loop of SQLAir::selectHelper, threading the running match
    count `n`: a matching row first triggers the header line when
    `n == 0`, then its own line. -/
def selectScan (csv : CSV) (cols : List String) (whereColIdx : Int)
    (cond value : String) : List CSVRow → Nat → Option (List String × Nat)
  | [], n => some ([], n)
  | row :: rest, n => do
      let m ← rowIsMatch whereColIdx cond value row
      if m then do
        let line ← printRow csv cols row
        let (lines, total) ←
          selectScan csv cols whereColIdx cond value rest (n + 1)
        some ((if n = 0 then [headerLine cols] else []) ++ line :: lines,
              total)
      else selectScan csv cols whereColIdx cond value rest n

/-- SQLAir::selectHelper: expand the wildcard, scan all rows, return the
    produced lines and the match count. -/
def selectHelper (csv : CSV) (colNames : List String) (whereColIdx : Int)
    (cond value : String) : Option (List String × Nat) :=
  selectScan csv (expandColsSelect csv colNames) whereColIdx cond value
    csv.rows 0

/-- SQLAir::selectQuery: run the helper, then append the count line.  With
    `mustWait` and a zero count the code enters the blocking loop; against
    a fixed table that loop never completes (each re-scan returns the same
    zero count and the wait blocks), embedded as `none`; the loop's
    temporal behavior is embedded separately by `selectQueryTrace`. -/
def selectQuery (csv : CSV) (mustWait : Bool) (colNames : List String)
    (whereColIdx : Int) (cond value : String) : Option (List String) := do
  let (lines, n) ← selectHelper csv colNames whereColIdx cond value
  if n = 0 && mustWait then none
  else some (lines ++ [toString n ++ " row(s) selected."])

/-- The inner column loop shared by SQLAir::updateHelper and
    SQLAir::insertQuery:
    `for i in 0..colNames.size: row.at(csv.getColumnIndex(colNames[i])) =
    values[i]`.  Reading `values[i]` past the end of `values`
    (`operator[]` out of range) is undefined behavior, embedded as
    `none`, as is an unknown column name or an out-of-range row index. -/
def writeCells (csv : CSV) : List String → List String → CSVRow →
    Option CSVRow
  | [], _, row => some row
  | _ :: _, [], _ => none
  | c :: cs, v :: vs, row => do
      let idx ← csv.getColumnIndex c
      if idx < row.length then writeCells csv cs vs (row.set idx v)
      else none

/-- The row loop of SQLAir::updateHelper: for each matching row overwrite
    the named columns positionally from `values`. -/
def updateScan (csv : CSV) (cols values : List String) (whereColIdx : Int)
    (cond value : String) : List CSVRow → Option (List CSVRow × Nat)
  | [] => some ([], 0)
  | row :: rest => do
      let m ← rowIsMatch whereColIdx cond value row
      if m then do
        let row' ← writeCells csv cols values row
        let (rows', n) ←
          updateScan csv cols values whereColIdx cond value rest
        some (row' :: rows', n + 1)
      else do
        let (rows', n) ←
          updateScan csv cols values whereColIdx cond value rest
        some (row :: rows', n)

/-- SQLAir::updateHelper: expand the wildcard (the update variant), scan
    all rows, return the updated table and the match count.  (The
    `notify_all` on a positive count is part of the temporal model.) -/
def updateHelper (csv : CSV) (colNames values : List String)
    (whereColIdx : Int) (cond value : String) : Option (CSV × Nat) :=
  (updateScan csv (expandColsUpdate csv colNames) values whereColIdx cond
      value csv.rows).map
    (fun p => ({ csv with rows := p.1 }, p.2))

/-- SQLAir::updateQuery: run the helper, then append the count line; the
    blocking loop is embedded as in `selectQuery` (see
    `updateQueryTrace` for its temporal behavior). -/
def updateQuery (csv : CSV) (mustWait : Bool) (colNames values : List String)
    (whereColIdx : Int) (cond value : String) :
    Option (CSV × List String) := do
  let (csv', n) ← updateHelper csv colNames values whereColIdx cond value
  if n = 0 && mustWait then none
  else some (csv', [toString n ++ " row(s) updated."])

/-- SQLAir::insertQuery: build a row of `getColumnCount()` empty strings,
    overwrite the named columns positionally from `values`, append it,
    and report one row inserted. -/
def insertQuery (csv : CSV) (colNames values : List String) :
    Option (CSV × List String) := do
  let row ← writeCells csv colNames values
    (List.replicate csv.colNames.length "")
  some ({ csv with rows := csv.rows ++ [row] }, ["1 row inserted."])

/-- The registry state touched by SQLAir::loadAndGet: the most recently
    used identifier and the set of identifiers already loaded in
    `inMemoryCSV` (the tables themselves are irrelevant to resolution). -/
structure Registry where
  recentCSV : String
  inMemoryCSV : List String
deriving DecidableEq

/-- How SQLAir::loadAndGet proceeds for a resolved identifier: return the
    cached table, or load it from a web server (identifier starting with
    `http://`), or load it from a local file. -/
inductive ResolveAction where
  | useCached : String → ResolveAction
  | loadURL : String → ResolveAction
  | loadLocal : String → ResolveAction
deriving DecidableEq

/-- The resolution phase of SQLAir::loadAndGet (the part before any I/O):
    an empty `fileOrURL` is replaced by `recentCSV`, `recentCSV` is
    unconditionally updated to the resolved identifier, a cached
    identifier short-circuits, and otherwise the code proceeds to load —
    from a URL when the identifier starts with `http://`, else from a
    local file (the load itself, and the insertion into `inMemoryCSV`
    after a successful load, are collaborator I/O outside this function).
    The returned string is the updated `recentCSV`. -/
def loadAndGet (reg : Registry) (fileOrURL : String) :
    ResolveAction × String :=
  let id := if fileOrURL.isEmpty then reg.recentCSV else fileOrURL
  if id ∈ reg.inMemoryCSV then (ResolveAction.useCached id, id)
  else if id.take 7 = "http://" then (ResolveAction.loadURL id, id)
  else (ResolveAction.loadLocal id, id)

/-- The fixed HTTP response header constant of SQLAir.cpp. -/
def HTTPRespHeader : String :=
  "HTTP/1.1 200 OK\r\nServer: localhost\r\nConnection: Close\r\n" ++
  "Content-Type: text/plain\r\nContent-Length: "

/-- The response assembly at the end of SQLAir::clientThread:
    `*client << HTTPRespHeader << resp.size() << "\r\n\r\n" << resp`. -/
def mkHTTPResponse (body : String) : String :=
  HTTPRespHeader ++ toString body.length ++ "\r\n\r\n" ++ body

/-- The try/catch around `process(sql, os)` in SQLAir::clientThread: a
    successful run's output is the body; a thrown exception yields the
    body `Error: <message>` (one output line). -/
def processOutcome (result : Except String String) : String :=
  match result with
  | Except.ok out => out
  | Except.error msg => "Error: " ++ msg ++ "\n"

/-- The query prefix constant of SQLAir::clientThread. -/
def queryMarker : String := "/sql-air?query="

/-- Whitespace as stripped by the trim collaborator. -/
def isSpaceChar (c : Char) : Bool :=
  c = ' ' || c = '\t' || c = '\n' || c = '\r'

/-- Modelled from the spec: `Helper::trim` (a lexical collaborator, not
    under src/) — strips leading and trailing whitespace. -/
def trim (s : String) : String :=
  String.mk
    (((s.toList.dropWhile isSpaceChar).reverse.dropWhile
        isSpaceChar).reverse)

/-- `req.substr(prefix.size())` — the request text after the prefix. -/
def dropChars (s : String) (n : Nat) : String :=
  String.mk (s.toList.drop n)

/-- The semicolon stripping in SQLAir::clientThread:
    `if (sql.back() == ';') sql.pop_back()`.  `std::string::back()` on an
    empty string is undefined behavior (out-of-bounds read), embedded as
    `none`; `pop_back` drops the last character. -/
def stripSemicolon (sql : String) : Option String :=
  match sql.toList.getLast? with
  | none => none
  | some c => if c = ';' then some (String.mk sql.toList.dropLast) else some sql

/-- The sql-air branch of SQLAir::clientThread, for a decoded request
    that starts with the query prefix: trim the text after the prefix,
    strip a trailing semicolon, process the statement (the statement
    parser/executor `process` is a parameter; it is outside this file's
    scope), and wrap the outcome in the fixed response header. -/
def clientThreadQuery (process : String → Except String String)
    (req : String) : Option String :=
  let sql := trim (dropChars req queryMarker.length)
  (stripSemicolon sql).map
    (fun s => mkHTTPResponse (processOutcome (process s)))

/-- Events of the blocking-query loop: a scan of the table returning its
    match count, a wait on the table's condition variable, and the final
    write of the count line. -/
inductive Ev where
  | scan : Nat → Ev
  | wait : Ev
  | write : Nat → Ev
deriving DecidableEq

/-- The `while (rowCount == 0 && mustWait)` loop body shared verbatim by
    SQLAir::selectQuery and SQLAir::updateQuery: re-run the scan, then
    wait on `csvCondVar` (unconditionally), then re-test the loop
    condition on the new count.  `counts k` abstracts the match count the
    `k`-th scan observes (the table may be mutated by concurrent writers
    between scans); `fuel` bounds the number of iterations modelled, with
    `none` for a loop still blocked after `fuel` iterations.  On exit the
    loop's final count is returned alongside the events. -/
def blockLoop (counts : Nat → Nat) : Nat → Nat → Option (List Ev × Nat)
  | _, 0 => none
  | k, fuel + 1 =>
      let r := counts k
      if r = 0 then
        (blockLoop counts (k + 1) fuel).map
          (fun p => (Ev.scan r :: Ev.wait :: p.1, p.2))
      else some ([Ev.scan r, Ev.wait], r)

/-- The event trace of SQLAir::selectQuery: initial scan, then (when the
    count is zero and `mustWait` holds) the blocking loop, then the write
    of the count line. -/
def selectQueryTrace (counts : Nat → Nat) (mustWait : Bool) (fuel : Nat) :
    Option (List Ev) :=
  let r := counts 0
  if r == 0 && mustWait then
    (blockLoop counts 1 fuel).map
      (fun p => Ev.scan r :: p.1 ++ [Ev.write p.2])
  else some [Ev.scan r, Ev.write r]

/-- The event trace of SQLAir::updateQuery; its loop is structurally
    identical to selectQuery's (scan, then unconditional wait, then
    re-test). -/
def updateQueryTrace (counts : Nat → Nat) (mustWait : Bool) (fuel : Nat) :
    Option (List Ev) :=
  let r := counts 0
  if r == 0 && mustWait then
    (blockLoop counts 1 fuel).map
      (fun p => Ev.scan r :: p.1 ++ [Ev.write p.2])
  else some [Ev.scan r, Ev.write r]

/- ------------------------------------------------------------------ -/
/- Helper lemmas                                                       -/
/- ------------------------------------------------------------------ -/

/-- An in-bounds where-column makes the match test total. -/
lemma rowIsMatch_eq_some (whereColIdx : Int) (cond value : String)
    (row : CSVRow)
    (h : whereColIdx = -1 ∨ (0 ≤ whereColIdx ∧ whereColIdx.toNat < row.length)) :
    rowIsMatch whereColIdx cond value row =
      some (rowMatchB whereColIdx cond value row) := by
  by_cases h1 : whereColIdx = -1
  · simp [rowIsMatch, rowMatchB, h1]
  · obtain ⟨h0, hlt⟩ := h.resolve_left h1
    have h2 : ¬ whereColIdx < 0 := not_lt.mpr h0
    cases hg : row.get? whereColIdx.toNat with
    | none =>
        rw [List.get?_eq_none] at hg
        omega
    | some c =>
        rw [List.get?_eq_getElem?] at hg
        simp [rowIsMatch, rowMatchB, h1, h2, hg]

/-- An in-bounds where-column makes the keep test total. -/
lemma rowKeep_eq_some (whereColIdx : Int) (cond value : String)
    (row : CSVRow)
    (h : whereColIdx = -1 ∨ (0 ≤ whereColIdx ∧ whereColIdx.toNat < row.length)) :
    rowKeep whereColIdx cond value row =
      some (rowKeepB whereColIdx cond value row) := by
  by_cases h1 : whereColIdx = -1
  · simp [rowKeep, rowKeepB, h1]
  · simp [rowKeep, rowKeepB, h1,
      rowIsMatch_eq_some whereColIdx cond value row h]

/-- The delete scan succeeds on in-bounds rows and computes the filter of
    the kept rows together with their number. -/
lemma deleteScan_eq (whereColIdx : Int) (cond value : String)
    (rows : List CSVRow)
    (h : ∀ r ∈ rows,
      whereColIdx = -1 ∨ (0 ≤ whereColIdx ∧ whereColIdx.toNat < r.length)) :
    deleteScan whereColIdx cond value rows =
      some (rows.filter (rowKeepB whereColIdx cond value),
            (rows.filter (rowKeepB whereColIdx cond value)).length) := by
  induction rows with
  | nil => simp [deleteScan]
  | cons row rest ih =>
      have hrow := h row (List.mem_cons_self row rest)
      have hrest := fun r hr => h r (List.mem_cons_of_mem row hr)
      rw [List.filter_cons]
      by_cases hk : rowKeepB whereColIdx cond value row
      · simp [deleteScan, rowKeep_eq_some whereColIdx cond value row hrow,
          ih hrest, hk]
      · simp [deleteScan, rowKeep_eq_some whereColIdx cond value row hrow,
          ih hrest, hk]

/- ------------------------------------------------------------------ -/
/- C2, C3 — deleteQuery                                                -/
/- ------------------------------------------------------------------ -/

/-- C2 counterexample: on a one-column table with rows a,b,c, deleting
    rows whose column 0 equals "a" removes one row, yet the code outputs
    `2 row(s) Deleted.` — the count of retained rows with a capital D —
    not the claimed `1 row(s) deleted.`. -/
theorem c2_counterexample :
    deleteQuery [["a"], ["b"], ["c"]] 0 "=" "a" =
      some ([["b"], ["c"]], "2 row(s) Deleted.") ∧
    "2 row(s) Deleted." ≠ "1 row(s) deleted." := by
  constructor
  · rfl
  · decide

/-- C2 (amended): for every table and optional in-bounds predicate,
    delete writes exactly the trailing line `<n> row(s) Deleted.` where
    `n` is the number of rows retained by the delete. -/
theorem c2_delete_count_line (rows : List CSVRow) (whereColIdx : Int)
    (cond value : String)
    (h : ∀ r ∈ rows,
      whereColIdx = -1 ∨ (0 ≤ whereColIdx ∧ whereColIdx.toNat < r.length)) :
    ∃ kept, deleteQuery rows whereColIdx cond value =
        some (kept, toString kept.length ++ " row(s) Deleted.") ∧
      kept = rows.filter (rowKeepB whereColIdx cond value) := by
  refine ⟨rows.filter (rowKeepB whereColIdx cond value), ?_, rfl⟩
  simp [deleteQuery, deleteScan_eq whereColIdx cond value rows h]

/-- C2 witness: a concrete delete removing one of two rows reports the
    one retained row. -/
theorem c2_delete_count_line_witness :
    ∃ kept, deleteQuery [["x"], ["y"]] 0 "=" "x" =
        some (kept, toString kept.length ++ " row(s) Deleted.") ∧
      kept = [["x"], ["y"]].filter (rowKeepB 0 "=" "x") :=
  c2_delete_count_line [["x"], ["y"]] 0 "=" "x" (by decide)

/-- C3: after delete, the row sequence is the filter of the prior rows by
    the keep test — with a predicate present (whereColIdx ≠ -1) exactly
    the rows that do NOT match, as an order-preserving subsequence
    (Sublist) of the prior rows; with the predicate absent
    (whereColIdx = -1) the row sequence is unchanged. -/
theorem c3_delete_rows (rows : List CSVRow) (whereColIdx : Int)
    (cond value : String)
    (h : ∀ r ∈ rows,
      whereColIdx = -1 ∨ (0 ≤ whereColIdx ∧ whereColIdx.toNat < r.length)) :
    ∃ out, deleteQuery rows whereColIdx cond value =
        some (rows.filter (rowKeepB whereColIdx cond value), out) ∧
      (rows.filter (rowKeepB whereColIdx cond value)).Sublist rows ∧
      (whereColIdx ≠ -1 →
        rows.filter (rowKeepB whereColIdx cond value) =
          rows.filter (fun r => !(rowMatchB whereColIdx cond value r))) ∧
      (whereColIdx = -1 →
        rows.filter (rowKeepB whereColIdx cond value) = rows) := by
  refine ⟨toString (rows.filter (rowKeepB whereColIdx cond value)).length ++
      " row(s) Deleted.", ?_, List.filter_sublist rows, ?_, ?_⟩
  · simp [deleteQuery, deleteScan_eq whereColIdx cond value rows h]
  · intro h1
    exact List.filter_congr (fun r _ => by simp [rowKeepB, h1])
  · intro h1
    subst h1
    simp [rowKeepB]

/-- C3 witness: deleting rows matching "b" from a two-row table keeps the
    first row only, in place. -/
theorem c3_delete_rows_witness :
    ∃ out, deleteQuery [["a"], ["b"]] 0 "=" "b" =
        some ([["a"], ["b"]].filter (rowKeepB 0 "=" "b"), out) ∧
      ([["a"], ["b"]].filter (rowKeepB 0 "=" "b")).Sublist [["a"], ["b"]] ∧
      ((0 : Int) ≠ -1 →
        [["a"], ["b"]].filter (rowKeepB 0 "=" "b") =
          [["a"], ["b"]].filter (fun r => !(rowMatchB 0 "=" "b" r))) ∧
      ((0 : Int) = -1 →
        [["a"], ["b"]].filter (rowKeepB 0 "=" "b") = [["a"], ["b"]]) :=
  c3_delete_rows [["a"], ["b"]] 0 "=" "b" (by decide)

/- ------------------------------------------------------------------ -/
/- C4 — loadAndGet resolution                                          -/
/- ------------------------------------------------------------------ -/

/-- C4 counterexample: with an empty identifier and no identifier ever
    used (recentCSV empty, nothing loaded), loadAndGet does not fail with
    NoTableSelected — it proceeds to attempt a local-file load from the
    empty identifier. -/
theorem c4_counterexample :
    loadAndGet ⟨"", []⟩ "" = (ResolveAction.loadLocal "", "") := by
  rfl

/-- C4 (amended): an empty identifier is substituted by the last-used
    identifier, which is recorded as most-recently-used; but when no
    identifier exists yet there is no NoTableSelected failure — the code
    goes on to attempt a local-file load from the empty identifier. -/
theorem c4_empty_identifier (reg : Registry) :
    (loadAndGet reg "").1 =
      (if reg.recentCSV ∈ reg.inMemoryCSV then
        ResolveAction.useCached reg.recentCSV
      else if reg.recentCSV.take 7 = "http://" then
        ResolveAction.loadURL reg.recentCSV
      else ResolveAction.loadLocal reg.recentCSV) ∧
    (loadAndGet reg "").2 = reg.recentCSV ∧
    (reg.recentCSV = "" → "" ∉ reg.inMemoryCSV →
      (loadAndGet reg "").1 = ResolveAction.loadLocal "") := by
  have hid : loadAndGet reg "" =
      (if reg.recentCSV ∈ reg.inMemoryCSV then
        (ResolveAction.useCached reg.recentCSV, reg.recentCSV)
      else if reg.recentCSV.take 7 = "http://" then
        (ResolveAction.loadURL reg.recentCSV, reg.recentCSV)
      else (ResolveAction.loadLocal reg.recentCSV, reg.recentCSV)) := rfl
  refine ⟨?_, ?_, ?_⟩
  · rw [hid]
    split_ifs <;> rfl
  · rw [hid]
    split_ifs <;> rfl
  · intro he hm
    rw [hid, he]
    simp [hm, show ¬ ("" : String).take 7 = "http://" from by decide]

/-- C4 witness: a registry that has a table loaded but has never resolved
    an identifier still routes an empty request to a local load of "". -/
theorem c4_empty_identifier_witness :
    (loadAndGet ⟨"", ["t.csv"]⟩ "").1 = ResolveAction.loadLocal "" :=
  (c4_empty_identifier ⟨"", ["t.csv"]⟩).2.2 rfl (by decide)

/- ------------------------------------------------------------------ -/
/- C7 — wildcard column expansion                                      -/
/- ------------------------------------------------------------------ -/

/-- C7 counterexample: on the list ["x", "*"], select's expansion leaves
    the list unchanged while update's expands it to the full column list,
    so the two expansion functions are not equal on every input. -/
theorem c7_counterexample :
    expandColsSelect ⟨["x", "y"], []⟩ ["x", "*"] ≠
      expandColsUpdate ⟨["x", "y"], []⟩ ["x", "*"] ∧
    expandColsUpdate ⟨["x", "y"], []⟩ ["x", "*"] = ["x", "y"] := by
  decide

/-- C7 (amended): update expands to the full column list whenever "*"
    occurs anywhere in columnNames (not only when it is the single
    token); the two expansion functions agree on every list that either
    contains no "*" or is exactly the single wildcard token. -/
theorem c7_expand (csv : CSV) (cols : List String) :
    expandColsUpdate csv cols =
      (if "*" ∈ cols then csv.colNames else cols) ∧
    ("*" ∉ cols ∨ cols = ["*"] →
      expandColsUpdate csv cols = expandColsSelect csv cols) := by
  refine ⟨rfl, ?_⟩
  intro h
  rcases h with h1 | h1
  · have hne : expandColsUpdate csv cols = cols := by
      simp [expandColsUpdate, h1]
    rw [hne]
    cases cols with
    | nil => rfl
    | cons c cs =>
        cases cs with
        | nil =>
            have hc : ¬ c = "*" := by
              intro hc
              exact h1 (by simp [hc])
            simp [expandColsSelect, hc]
        | cons d ds => rfl
  · subst h1
    simp [expandColsSelect, expandColsUpdate]

/-- C7 witness: on a wildcard-free list the two expansions agree. -/
theorem c7_expand_witness :
    expandColsUpdate ⟨["x", "y"], []⟩ ["a", "b"] =
      expandColsSelect ⟨["x", "y"], []⟩ ["a", "b"] :=
  (c7_expand ⟨["x", "y"], []⟩ ["a", "b"]).2 (Or.inl (by decide))

/- ------------------------------------------------------------------ -/
/- C1 — blocking-mode wait placement                                   -/
/- ------------------------------------------------------------------ -/

/-- C1: with blockUntilMatch set, a first scan matching zero rows and the
    in-loop re-scan matching one row, both select and update still
    execute a wait on the condition variable AFTER the matching scan and
    before writing the count line: the trace is
    scan 0, scan 1, wait, write 1 — not the claimed scan 0, wait, scan 1,
    write 1 in which no wait follows a matching scan.  The operation
    therefore blocks for one more table-change notification after its
    predicate is already satisfied. -/
theorem c1_wait_after_matching_scan :
    selectQueryTrace (fun k => if k = 0 then 0 else 1) true 1 =
      some [Ev.scan 0, Ev.scan 1, Ev.wait, Ev.write 1] ∧
    updateQueryTrace (fun k => if k = 0 then 0 else 1) true 1 =
      some [Ev.scan 0, Ev.scan 1, Ev.wait, Ev.write 1] ∧
    (some [Ev.scan 0, Ev.scan 1, Ev.wait, Ev.write 1]).any
      (fun t => decide (t.get? 2 = some Ev.wait ∧
        t.get? 1 = some (Ev.scan 1))) = true := by
  refine ⟨rfl, rfl, ?_⟩
  decide

/- ------------------------------------------------------------------ -/
/- C8 — error responses from the worker                                -/
/- ------------------------------------------------------------------ -/

/-- C8: a core failure with message `msg` produces the body
    `Error: <msg>` (one newline-terminated line), wrapped by the worker
    in the same fixed success header as a successful outcome, with the
    content-length field equal to the body's size; every response —
    success or error — starts with the fixed `HTTP/1.1 200 OK` status
    line, so the transport-level status is never varied on error. -/
theorem c8_error_response (msg out body : String) :
    processOutcome (Except.error msg) = "Error: " ++ msg ++ "\n" ∧
    mkHTTPResponse (processOutcome (Except.error msg)) =
      HTTPRespHeader ++ toString ("Error: " ++ msg ++ "\n").length ++
        "\r\n\r\n" ++ ("Error: " ++ msg ++ "\n") ∧
    mkHTTPResponse (processOutcome (Except.ok out)) =
      HTTPRespHeader ++ toString out.length ++ "\r\n\r\n" ++ out ∧
    clientThreadQuery (fun _ => Except.error msg) "/sql-air?query=x" =
      some (mkHTTPResponse ("Error: " ++ msg ++ "\n")) ∧
    (∃ rest, mkHTTPResponse body = HTTPRespHeader ++ rest) ∧
    HTTPRespHeader =
      "HTTP/1.1 200 OK\r\n" ++
        ("Server: localhost\r\nConnection: Close\r\n" ++
          "Content-Type: text/plain\r\nContent-Length: ") := by
  refine ⟨rfl, rfl, rfl, rfl, ?_, by decide⟩
  refine ⟨toString body.length ++ "\r\n\r\n" ++ body, ?_⟩
  rw [mkHTTPResponse]
  simp [String.append_assoc]

/- ------------------------------------------------------------------ -/
/- C10 — trailing-semicolon strip on empty SQL text                    -/
/- ------------------------------------------------------------------ -/

/-- C10: a query request whose SQL text trims to the empty string drives
    `sql.back()` — called unconditionally by the worker — into an
    out-of-bounds read of the empty string (undefined behavior, embedded
    as `none`): the decoded request `/sql-air?query=` faults before the
    statement is processed, for every statement processor. -/
theorem c10_back_on_empty :
    stripSemicolon "" = none ∧
    clientThreadQuery (fun _ => Except.ok "ok") "/sql-air?query=" = none ∧
    clientThreadQuery (fun _ => Except.ok "ok") "/sql-air?query=   " =
      none := by
  exact ⟨rfl, rfl, rfl⟩

/- ------------------------------------------------------------------ -/
/- Column-index and cell-write lemmas                                  -/
/- ------------------------------------------------------------------ -/

/-- A present name has an index, within bounds, pointing back at it. -/
lemma idxOf_of_mem {c : String} :
    ∀ {l : List String}, c ∈ l →
      ∃ i, idxOf c l = some i ∧ i < l.length ∧ l.get? i = some c := by
  intro l
  induction l with
  | nil => intro h; cases h
  | cons d ds ih =>
      intro h
      by_cases hd : d = c
      · exact ⟨0, by simp [idxOf, hd], by simp, by simp [hd]⟩
      · have hm : c ∈ ds := by
          cases h with
          | head => exact absurd rfl hd
          | tail _ h2 => exact h2
        obtain ⟨i, h1, h2, h3⟩ := ih hm
        exact ⟨i + 1, by simp [idxOf, hd, h1], by simpa using h2,
          by simpa using h3⟩

/-- A found index is in bounds and points at the looked-up name. -/
lemma idxOf_sound {c : String} :
    ∀ {l : List String} {i : Nat}, idxOf c l = some i →
      i < l.length ∧ l.get? i = some c := by
  intro l
  induction l with
  | nil => intro i h; simp [idxOf] at h
  | cons d ds ih =>
      intro i h
      by_cases hd : d = c
      · simp [idxOf, hd] at h
        subst h
        exact ⟨by simp, by simp [hd]⟩
      · simp [idxOf, hd] at h
        obtain ⟨j, hj, rfl⟩ := h
        obtain ⟨h1, h2⟩ := ih hj
        exact ⟨by simpa using h1, by simpa using h2⟩

/-- The column map is injective on found names. -/
lemma getColumnIndex_inj (csv : CSV) {a b : String} {i : Nat}
    (ha : csv.getColumnIndex a = some i) (hb : csv.getColumnIndex b = some i) :
    a = b := by
  have h1 := (idxOf_sound ha).2
  have h2 := (idxOf_sound hb).2
  rw [h1] at h2
  exact Option.some_injective _ h2

/-- The positional column-write loop succeeds whenever the value list is
    at least as long as the column list, every named column exists, and
    the row has the table's column count; the row keeps its length. -/
lemma writeCells_some (csv : CSV) :
    ∀ (cols values : List String) (row : CSVRow),
      cols.length = values.length →
      (∀ c ∈ cols, c ∈ csv.colNames) →
      row.length = csv.colNames.length →
      ∃ row', writeCells csv cols values row = some row' ∧
        row'.length = row.length := by
  intro cols
  induction cols with
  | nil => intro values row _ _ _; exact ⟨row, rfl, rfl⟩
  | cons c cs ih =>
      intro values row hlen hmem hrow
      cases values with
      | nil => simp at hlen
      | cons v vs =>
          obtain ⟨i, hidx, hlt, _⟩ :=
            idxOf_of_mem (hmem c (List.mem_cons_self c cs))
          have hlt' : i < row.length := by omega
          obtain ⟨row', h1, h2⟩ := ih vs (row.set i v)
            (by simpa using hlen)
            (fun x hx => hmem x (List.mem_cons_of_mem c hx))
            (by simpa using hrow)
          refine ⟨row', ?_, by simpa using h2⟩
          simp [writeCells, CSV.getColumnIndex, hidx, hlt', h1]

/-- Cells at indices no named column maps to are untouched by the
    column-write loop. -/
lemma writeCells_frame (csv : CSV) :
    ∀ (cols values : List String) (row row' : CSVRow) (j : Nat),
      (∀ c ∈ cols, csv.getColumnIndex c ≠ some j) →
      writeCells csv cols values row = some row' →
      row'.get? j = row.get? j := by
  intro cols
  induction cols with
  | nil =>
      intro values row row' j _ hw
      cases hw
      rfl
  | cons c cs ih =>
      intro values row row' j hne hw
      cases values with
      | nil => simp [writeCells] at hw
      | cons v vs =>
          cases hg : csv.getColumnIndex c with
          | none => simp [writeCells, hg] at hw
          | some i =>
              by_cases hlt : i < row.length
              · rw [writeCells, hg] at hw
                simp [hlt] at hw
                have hij : i ≠ j := by
                  intro hh
                  exact hne c (List.mem_cons_self c cs) (hh ▸ hg)
                have := ih vs (row.set i v) row' j
                  (fun x hx => hne x (List.mem_cons_of_mem c hx)) hw
                rw [this]
                exact List.get?_set_ne v row hij
              · rw [writeCells, hg] at hw
                simp [hlt] at hw

/-- With distinct column names, the column-write loop stores each value
    at its named column's index. -/
lemma writeCells_get (csv : CSV) :
    ∀ (cols values : List String) (row row' : CSVRow),
      cols.Nodup → cols.length = values.length →
      row.length = csv.colNames.length →
      writeCells csv cols values row = some row' →
      ∀ k (hk : k < cols.length),
        ∃ j, csv.getColumnIndex (cols.get ⟨k, hk⟩) = some j ∧
          row'.get? j = values.get? k := by
  intro cols
  induction cols with
  | nil => intro values row row' _ _ _ _ k hk; simp at hk
  | cons c cs ih =>
      intro values row row' hnd hlen hrow hw k hk
      cases values with
      | nil => simp at hlen
      | cons v vs =>
          cases hg : csv.getColumnIndex c with
          | none => simp [writeCells, hg] at hw
          | some i =>
              by_cases hlt : i < row.length
              · rw [writeCells, hg] at hw
                simp [hlt] at hw
                cases k with
                | zero =>
                    refine ⟨i, by simpa using hg, ?_⟩
                    have hframe : row'.get? i = (row.set i v).get? i := by
                      refine writeCells_frame csv cs vs (row.set i v) row' i
                        ?_ hw
                      intro x hx hgx
                      have : x = c := getColumnIndex_inj csv hgx hg
                      subst this
                      exact (List.nodup_cons.mp hnd).1 hx
                    rw [hframe, List.get?_set_eq_of_lt v hlt]
                    rfl
                | succ m =>
                    have := ih vs (row.set i v) row'
                      (List.nodup_cons.mp hnd).2
                      (by simpa using hlen)
                      (by simpa using hrow) hw m (by simpa using hk)
                    simpa using this
              · rw [writeCells, hg] at hw
                simp [hlt] at hw

/- ------------------------------------------------------------------ -/
/- C6 — insertQuery                                                    -/
/- ------------------------------------------------------------------ -/

/-- C6: for every insert whose distinct column names all exist and whose
    value list matches them in length, a single new row with one cell per
    table column is appended at the end of the row sequence; each named
    column's cell is the positionally corresponding value, every
    unspecified column's cell is the empty string, the row count grows by
    exactly one, and the output is exactly `1 row inserted.`. -/
theorem c6_insert (csv : CSV) (colNames values : List String)
    (hlen : colNames.length = values.length)
    (hmem : ∀ c ∈ colNames, c ∈ csv.colNames)
    (hnd : colNames.Nodup) :
    ∃ newRow, insertQuery csv colNames values =
        some ({ csv with rows := csv.rows ++ [newRow] },
          ["1 row inserted."]) ∧
      newRow.length = csv.colNames.length ∧
      (csv.rows ++ [newRow]).length = csv.rows.length + 1 ∧
      (∀ k (hk : k < colNames.length),
        ∃ j, csv.getColumnIndex (colNames.get ⟨k, hk⟩) = some j ∧
          newRow.get? j = values.get? k) ∧
      (∀ j, j < csv.colNames.length →
        (∀ c ∈ colNames, csv.getColumnIndex c ≠ some j) →
        newRow.get? j = some "") := by
  obtain ⟨newRow, hw, hlen'⟩ :=
    writeCells_some csv colNames values
      (List.replicate csv.colNames.length "") hlen hmem
      (by simp)
  refine ⟨newRow, ?_, by simpa using hlen', by simp, ?_, ?_⟩
  · simp [insertQuery, hw]
  · exact writeCells_get csv colNames values _ newRow hnd hlen (by simp) hw
  · intro j hj hne
    have := writeCells_frame csv colNames values _ newRow j hne hw
    rw [this, List.get?_eq_getElem?, List.getElem?_replicate]
    simp [hj]

/-- C6 witness: inserting name="Bo" into a two-column table appends the
    row ["", "Bo"]. -/
theorem c6_insert_witness :
    ∃ newRow,
      insertQuery ⟨["id", "name"], [["1", "Amy"]]⟩ ["name"] ["Bo"] =
        some ({ colNames := ["id", "name"],
                rows := [["1", "Amy"]] ++ [newRow] }, ["1 row inserted."]) ∧
      newRow.length = (["id", "name"] : List String).length ∧
      ([["1", "Amy"]] ++ [newRow]).length = [["1", "Amy"]].length + 1 ∧
      (∀ k (hk : k < (["name"] : List String).length),
        ∃ j, CSV.getColumnIndex ⟨["id", "name"], [["1", "Amy"]]⟩
            ((["name"] : List String).get ⟨k, hk⟩) = some j ∧
          newRow.get? j = (["Bo"] : List String).get? k) ∧
      (∀ j, j < (["id", "name"] : List String).length →
        (∀ c ∈ (["name"] : List String),
          CSV.getColumnIndex ⟨["id", "name"], [["1", "Amy"]]⟩ c ≠ some j) →
        newRow.get? j = some "") :=
  c6_insert ⟨["id", "name"], [["1", "Amy"]]⟩ ["name"] ["Bo"] (by decide)
    (by decide) (by decide)

/- ------------------------------------------------------------------ -/
/- C9 — bounds of positional value access in update                    -/
/- ------------------------------------------------------------------ -/

/-- The update row scan succeeds (no out-of-bounds access anywhere) when
    the value list matches the post-expansion column list in length. -/
lemma updateScan_some (csv : CSV) (cols values : List String)
    (whereColIdx : Int) (cond value : String) :
    ∀ rows : List CSVRow,
      cols.length = values.length →
      (∀ c ∈ cols, c ∈ csv.colNames) →
      (∀ r ∈ rows, r.length = csv.colNames.length) →
      (whereColIdx = -1 ∨
        (0 ≤ whereColIdx ∧ whereColIdx.toNat < csv.colNames.length)) →
      ∃ p, updateScan csv cols values whereColIdx cond value rows =
        some p := by
  intro rows
  induction rows with
  | nil => intro _ _ _ _; exact ⟨([], 0), rfl⟩
  | cons row rest ih =>
      intro hlen hmem hrows hwci
      have hr : row.length = csv.colNames.length :=
        hrows row (List.mem_cons_self row rest)
      have hm : rowIsMatch whereColIdx cond value row =
          some (rowMatchB whereColIdx cond value row) := by
        refine rowIsMatch_eq_some whereColIdx cond value row ?_
        rcases hwci with h | ⟨h0, hlt⟩
        · exact Or.inl h
        · exact Or.inr ⟨h0, by omega⟩
      obtain ⟨p, hp⟩ := ih hlen hmem
        (fun r hr2 => hrows r (List.mem_cons_of_mem row hr2)) hwci
      by_cases hb : rowMatchB whereColIdx cond value row
      · obtain ⟨row', hw, _⟩ :=
          writeCells_some csv cols values row hlen hmem hr
        exact ⟨(row' :: p.1, p.2 + 1),
          by simp [updateScan, hm, hb, hw, hp]⟩
      · exact ⟨(row :: p.1, p.2),
          by simp [updateScan, hm, hb, hp]⟩

/-- C9 (amended): every positional access into newValues during the
    update scan is in bounds — the scan completes without fault —
    provided newValues has the same length as the column list AFTER
    wildcard expansion (and the named columns exist, the table is
    well-formed, and the where-column is valid).  The claim's
    precondition, same length as the SUPPLIED list, is not sufficient
    when the wildcard expands to more columns than newValues (see the
    counterexample). -/
theorem c9_update_inbounds (csv : CSV) (colNames values : List String)
    (whereColIdx : Int) (cond value : String)
    (hlen : (expandColsUpdate csv colNames).length = values.length)
    (hmem : ∀ c ∈ expandColsUpdate csv colNames, c ∈ csv.colNames)
    (hwf : csv.wf)
    (hwci : whereColIdx = -1 ∨
      (0 ≤ whereColIdx ∧ whereColIdx.toNat < csv.colNames.length)) :
    ∃ res, updateHelper csv colNames values whereColIdx cond value =
      some res := by
  obtain ⟨p, hp⟩ := updateScan_some csv (expandColsUpdate csv colNames)
    values whereColIdx cond value csv.rows hlen hmem hwf hwci
  exact ⟨({ csv with rows := p.1 }, p.2), by simp [updateHelper, hp]⟩

/-- C9 counterexample: with the single wildcard token and a value list of
    the same length as the SUPPLIED column list (one entry), the
    expansion to a two-column table makes the scan read newValues out of
    bounds on the first matching row — the update faults (`none`). -/
theorem c9_counterexample :
    (["v"] : List String).length = (["*"] : List String).length ∧
    updateHelper ⟨["x", "y"], [["a", "b"]]⟩ ["*"] ["v"] (-1) "" "" =
      none := by
  exact ⟨rfl, rfl⟩

/-- C9 witness: with values matching the expanded column list the
    wildcard update completes in bounds. -/
theorem c9_update_inbounds_witness :
    ∃ res, updateHelper ⟨["x", "y"], [["a", "b"]]⟩ ["*"] ["u", "w"]
      (-1) "" "" = some res :=
  c9_update_inbounds ⟨["x", "y"], [["a", "b"]]⟩ ["*"] ["u", "w"] (-1) "" ""
    (by decide) (by decide) (by decide) (Or.inl rfl)

/- ------------------------------------------------------------------ -/
/- C5 — selectQuery output shape                                       -/
/- ------------------------------------------------------------------ -/

/-- Cell gathering succeeds and computes the total rendering when every
    selected column exists and is in bounds for the row. -/
lemma rowCells_eq (csv : CSV) (row : CSVRow) :
    ∀ cols : List String,
      (∀ c ∈ cols, ∃ i, csv.getColumnIndex c = some i ∧ i < row.length) →
      rowCells csv row cols =
        some (cols.map
          (fun c => ((csv.getColumnIndex c).bind row.get?).getD "")) := by
  intro cols
  induction cols with
  | nil => intro _; rfl
  | cons c cs ih =>
      intro h
      obtain ⟨i, hg, hlt⟩ := h c (List.mem_cons_self c cs)
      obtain ⟨cell, hc⟩ : ∃ cell, row.get? i = some cell :=
        ⟨row.get ⟨i, hlt⟩, List.get?_eq_get hlt⟩
      have hrest := ih (fun x hx => h x (List.mem_cons_of_mem c hx))
      rw [List.get?_eq_getElem?] at hc
      simp [rowCells, hg, hc, hrest]

/-- printRow produces the tab-joined selected cells under the same
    bounds. -/
lemma printRow_eq (csv : CSV) (row : CSVRow) (cols : List String)
    (h : ∀ c ∈ cols, ∃ i, csv.getColumnIndex c = some i ∧ i < row.length) :
    printRow csv cols row = some (renderRow csv cols row) := by
  simp [printRow, rowCells_eq csv row cols h, renderRow]

/-- The select row loop emits the header exactly once — when the running
    count is zero at the first match — then one rendered line per
    matching row, and returns the incremented count. -/
lemma selectScan_eq (csv : CSV) (cols : List String) (whereColIdx : Int)
    (cond value : String) :
    ∀ (rows : List CSVRow) (n : Nat),
      (∀ r ∈ rows,
        whereColIdx = -1 ∨
          (0 ≤ whereColIdx ∧ whereColIdx.toNat < r.length)) →
      (∀ r ∈ rows, ∀ c ∈ cols,
        ∃ i, csv.getColumnIndex c = some i ∧ i < r.length) →
      selectScan csv cols whereColIdx cond value rows n =
        some ((if n = 0 ∧
              rows.filter (rowMatchB whereColIdx cond value) ≠ [] then
            [headerLine cols] else []) ++
          (rows.filter (rowMatchB whereColIdx cond value)).map
            (renderRow csv cols),
          n + (rows.filter (rowMatchB whereColIdx cond value)).length) := by
  intro rows
  induction rows with
  | nil => intro n _ _; simp [selectScan]
  | cons row rest ih =>
      intro n hw hc
      have hm := rowIsMatch_eq_some whereColIdx cond value row
        (hw row (List.mem_cons_self row rest))
      have hrest := ih (n + 1)
        (fun r hr => hw r (List.mem_cons_of_mem row hr))
        (fun r hr => hc r (List.mem_cons_of_mem row hr))
      have hrest' := ih n
        (fun r hr => hw r (List.mem_cons_of_mem row hr))
        (fun r hr => hc r (List.mem_cons_of_mem row hr))
      by_cases hb : rowMatchB whereColIdx cond value row
      · have hpr := printRow_eq csv row cols
          (hc row (List.mem_cons_self row rest))
        rw [List.filter_cons]
        simp only [hb, if_pos]
        simp [selectScan, hm, hb, hpr, hrest]
        omega
      · rw [List.filter_cons]
        simp only [hb]
        simp [selectScan, hm, hb, hrest']

/-- C5: for every non-blocking select over a well-formed table with
    existing selected columns and a valid where-column, the output is:
    nothing but the count line `0 row(s) selected.` when no row matches
    (in particular on an empty table); otherwise the header line exactly
    once, immediately before the first matching row's line, then one
    tab-separated line per matching row, and finally the trailing count
    line `<n> row(s) selected.` with n the number of matching rows. -/
theorem c5_select_output (csv : CSV) (colNames : List String)
    (whereColIdx : Int) (cond value : String)
    (hwf : csv.wf)
    (hc : ∀ c ∈ expandColsSelect csv colNames, c ∈ csv.colNames)
    (hw : whereColIdx = -1 ∨
      (0 ≤ whereColIdx ∧ whereColIdx.toNat < csv.colNames.length)) :
    selectQuery csv false colNames whereColIdx cond value =
      some ((if csv.rows.filter (rowMatchB whereColIdx cond value) = []
          then []
          else headerLine (expandColsSelect csv colNames) ::
            (csv.rows.filter (rowMatchB whereColIdx cond value)).map
              (renderRow csv (expandColsSelect csv colNames))) ++
        [toString
            (csv.rows.filter (rowMatchB whereColIdx cond value)).length ++
          " row(s) selected."]) := by
  have hw' : ∀ r ∈ csv.rows,
      whereColIdx = -1 ∨
        (0 ≤ whereColIdx ∧ whereColIdx.toNat < r.length) := by
    intro r hr
    rcases hw with h | ⟨h0, hlt⟩
    · exact Or.inl h
    · exact Or.inr ⟨h0, by rw [hwf r hr]; exact hlt⟩
  have hc' : ∀ r ∈ csv.rows, ∀ c ∈ expandColsSelect csv colNames,
      ∃ i, csv.getColumnIndex c = some i ∧ i < r.length := by
    intro r hr c hcc
    obtain ⟨i, h1, h2, _⟩ := idxOf_of_mem (hc c hcc)
    exact ⟨i, h1, by rw [hwf r hr]; exact h2⟩
  have hs := selectScan_eq csv (expandColsSelect csv colNames) whereColIdx
    cond value csv.rows 0 hw' hc'
  rw [selectQuery, selectHelper, hs]
  by_cases hms : csv.rows.filter (rowMatchB whereColIdx cond value) = []
  · simp [hms]
  · have hlen : (csv.rows.filter
        (rowMatchB whereColIdx cond value)).length ≠ 0 := by
      simpa [List.length_eq_zero] using hms
    simp [hms, hlen, Option.bind]

/-- C5 witness: id=1 on a two-row table selects one row, with the header
    immediately before it and the count line last. -/
theorem c5_select_output_witness :
    selectQuery ⟨["id", "name"], [["1", "Amy"], ["2", "Bo"]]⟩ false ["*"]
        0 "=" "1" =
      some ((if ([["1", "Amy"], ["2", "Bo"]] : List CSVRow).filter
            (rowMatchB 0 "=" "1") = [] then []
          else headerLine (expandColsSelect
              ⟨["id", "name"], [["1", "Amy"], ["2", "Bo"]]⟩ ["*"]) ::
            (([["1", "Amy"], ["2", "Bo"]] : List CSVRow).filter
              (rowMatchB 0 "=" "1")).map
              (renderRow ⟨["id", "name"], [["1", "Amy"], ["2", "Bo"]]⟩
                (expandColsSelect
                  ⟨["id", "name"], [["1", "Amy"], ["2", "Bo"]]⟩ ["*"]))) ++
        [toString (([["1", "Amy"], ["2", "Bo"]] : List CSVRow).filter
            (rowMatchB 0 "=" "1")).length ++ " row(s) selected."]) :=
  c5_select_output ⟨["id", "name"], [["1", "Amy"], ["2", "Bo"]]⟩ ["*"] 0
    "=" "1" (by decide) (by decide) (Or.inr ⟨by decide, by decide⟩)

end SQLAir
